import Mathlib

/-!
Verification of the two JSON-scaling scripts in this repository:
`tools/scale_config.py` (the "Generic Scaler") and `tools/scale_frames.py`
(the "Frame Scaler").

JSON values are embedded as the inductive `JVal`.  JSON numbers are modelled
as rationals (`ℚ`): every multiplication by the scripts' factor 0.5 is exact,
and Python's round-half-to-even `round` is modelled as `roundHalfEven` on `ℚ`.
Python booleans are a subclass of `int`, so `isinstance(v, (int, float))` is
true for booleans and arithmetic treats `True` as 1 and `False` as 0; the
model mirrors this in `isNumeric` / `numVal`.

Python objects (dicts) preserve insertion order; they are modelled as
association lists.  `json.load` never produces duplicate keys, and all
dictionary reads/writes below use the first occurrence of a key, so the
embedding agrees with the scripts on every value `json.load` can produce.

Operations that raise a Python exception on some value shapes (`round` on a
non-number, subscripting a list with a string, `x in v` for non-iterable `v`,
`.items()` on a non-dict) are modelled with `Option`: `none` is an uncaught
runtime error, i.e., the script terminates without writing output.
-/

/-- A parsed JSON value, as produced by Python's `json.load`. -/
inductive JVal : Type where
  | null : JVal
  | bool : Bool → JVal
  | num : ℚ → JVal
  | str : String → JVal
  | arr : List JVal → JVal
  | obj : List (String × JVal) → JVal

namespace Mirage

/-- Does the character list `s` start with `sub`? -/
def headMatch : List Char → List Char → Bool
  | [], _ => true
  | _ :: _, [] => false
  | a :: as, b :: bs => a = b && headMatch as bs

/-- Does `sub` occur as a contiguous run somewhere in `s`? -/
def subSearch (sub : List Char) : List Char → Bool
  | [] => headMatch sub []
  | c :: rest => headMatch sub (c :: rest) || subSearch sub rest

/-- Python's substring test `sub in s` for strings. -/
def containsSub (sub s : String) : Bool :=
  subSearch sub.toList s.toList

/-- The Generic Scaler's key rule: `"dest_x" in key or "dest_y" in key`
(`scale_config.py`, line 12). -/
def targetKey (k : String) : Bool :=
  containsSub "dest_x" k || containsSub "dest_y" k

/-- Python's `isinstance(value, (int, float))`.  True for booleans, because
`bool` is a subclass of `int`. -/
def isNumeric : JVal → Bool
  | .num _ => true
  | .bool _ => true
  | _ => false

/-- The numeric value a Python number or boolean contributes to arithmetic
(`True` is 1, `False` is 0). -/
def numVal : JVal → ℚ
  | .num q => q
  | .bool b => if b then 1 else 0
  | _ => 0

mutual

/-- `scale_destinations` from `scale_config.py`: recursively scale numeric
values for any key containing `dest_x` or `dest_y`, in dicts or lists.  The
Python code mutates in place and returns the same object; the model returns
the resulting value. -/
def scale_destinations (scale : ℚ) : JVal → JVal
  | .obj kvs => .obj (scaleEntries scale kvs)
  | .arr xs => .arr (scaleArr scale xs)
  | v => v

/-- The dict branch of `scale_destinations`: each entry whose value is numeric
and whose key matches is replaced by `value * scale`; all other entries are
recursed into. -/
def scaleEntries (scale : ℚ) : List (String × JVal) → List (String × JVal)
  | [] => []
  | (k, v) :: rest =>
    (k, if isNumeric v && targetKey k then JVal.num (numVal v * scale)
        else scale_destinations scale v) :: scaleEntries scale rest

/-- The list branch of `scale_destinations`: every element is recursed into. -/
def scaleArr (scale : ℚ) : List JVal → List JVal
  | [] => []
  | v :: rest => scale_destinations scale v :: scaleArr scale rest

end

/-- A step into a JSON value: a dict key or a list index. -/
inductive Step : Type where
  | field : String → Step
  | index : Nat → Step
deriving DecidableEq

/-- First-occurrence lookup in an association list (Python dict read). -/
def lookupKey (kvs : List (String × JVal)) (k : String) : Option JVal :=
  match kvs with
  | [] => none
  | kv :: rest => if kv.1 = k then some kv.2 else lookupKey rest k

/-- Dereference a path of steps inside a JSON value. -/
def getPath : JVal → List Step → Option JVal
  | v, [] => some v
  | .obj kvs, .field k :: rest =>
    match lookupKey kvs k with
    | some w => getPath w rest
    | none => none
  | .arr xs, .index i :: rest =>
    match xs[i]? with
    | some w => getPath w rest
    | none => none
  | _, _ => none

/-- Replace the value at the first occurrence of key `k` (Python dict write
`d[k] = v` on an existing key). -/
def setKey : List (String × JVal) → String → JVal → List (String × JVal)
  | [], _, _ => []
  | kv :: rest, k, v => if kv.1 = k then (k, v) :: rest else kv :: setKey rest k v

/-- Python's `round` (one-argument form): round half to even, returning an
integer.  `scale_frames.py` wraps it in `int(...)`, which is the identity on
the integer `round` already returns. -/
def roundHalfEven (q : ℚ) : ℤ :=
  if q - ⌊q⌋ < 1 / 2 then ⌊q⌋
  else if 1 / 2 < q - ⌊q⌋ then ⌊q⌋ + 1
  else if ⌊q⌋ % 2 = 0 then ⌊q⌋ else ⌊q⌋ + 1

/-- `scale_value` from `scale_frames.py`: `int(round(val * factor))`.
`round` raises `TypeError` on a non-number (`none` here); on a number or
boolean it rounds half to even. -/
def scale_value (val : JVal) (factor : ℚ) : Option ℤ :=
  if isNumeric val then some (roundHalfEven (numVal val * factor)) else none

/-- Python's membership test `name in v` for a string `name`.  On a dict it
asks for the key; on a list it compares `name` against the elements (a string
only ever equals a string); on a string it is the substring test; on numbers,
booleans and `None` it raises `TypeError` (`none` here). -/
def pyContains (v : JVal) (name : String) : Option Bool :=
  match v with
  | .obj kvs => some (kvs.any (fun kv => kv.1 = name))
  | .arr xs => some (xs.any (fun x => match x with | .str s => s = name | _ => false))
  | .str s => some (containsSub name s)
  | _ => none

/-- One iteration of the loop in `scale_dict` (`scale_frames.py`, lines
11-13): `if key in data_dict: data_dict[key] = scale_value(data_dict[key],
factor)`.  Subscripting a non-dict with a string key raises (`none`). -/
def stepKey (factor : ℚ) (k : String) (v : JVal) : Option JVal :=
  match pyContains v k with
  | none => none
  | some false => some v
  | some true =>
    match v with
    | .obj kvs =>
      match lookupKey kvs k with
      | none => none
      | some w =>
        match scale_value w factor with
        | none => none
        | some n => some (JVal.obj (setKey kvs k (JVal.num (n : ℚ))))
    | _ => none

/-- `scale_dict` from `scale_frames.py`: scale the keys `x`, `y`, `w`, `h`
when present. -/
def scale_dict (factor : ℚ) (v : JVal) : Option JVal :=
  match stepKey factor "x" v with
  | none => none
  | some v1 =>
    match stepKey factor "y" v1 with
    | none => none
    | some v2 =>
      match stepKey factor "w" v2 with
      | none => none
      | some v3 => stepKey factor "h" v3

/-- One of the three guarded updates in the frames loop (`scale_frames.py`,
lines 31-36): `if name in frame: frame[name] = scale_dict(frame[name],
factor)`. -/
def updateSub (factor : ℚ) (name : String) (fr : JVal) : Option JVal :=
  match pyContains fr name with
  | none => none
  | some false => some fr
  | some true =>
    match fr with
    | .obj kvs =>
      match lookupKey kvs name with
      | none => none
      | some w =>
        match scale_dict factor w with
        | none => none
        | some w2 => some (JVal.obj (setKey kvs name w2))
    | _ => none

/-- The body of the frames loop for a single frame entry: the `frame`,
`spriteSourceSize` and `sourceSize` sub-objects are updated in turn. -/
def scaleFrame (factor : ℚ) (fr : JVal) : Option JVal :=
  match updateSub factor "frame" fr with
  | none => none
  | some f1 =>
    match updateSub factor "spriteSourceSize" f1 with
    | none => none
    | some f2 => updateSub factor "sourceSize" f2

/-- The frames loop over all entries of the `frames` mapping, in order. -/
def mapFrames (factor : ℚ) : List (String × JVal) → Option (List (String × JVal))
  | [] => some []
  | (k, fr) :: rest =>
    match scaleFrame factor fr with
    | none => none
    | some fr2 =>
      match mapFrames factor rest with
      | none => none
      | some rest2 => some ((k, fr2) :: rest2)

/-- The transform performed by `main` of `scale_frames.py` on the loaded
document, with its fixed `scale_factor = 0.5`: iterate over
`data.get("frames", {})` scaling each frame, leave everything else (including
a top-level `size`) alone.  `data.get` on a non-dict document raises
`AttributeError`, and `.items()` on a non-dict `frames` value raises too
(`none` in both cases). -/
def scale_frames_doc (doc : JVal) : Option JVal :=
  match doc with
  | .obj kvs =>
    match lookupKey kvs "frames" with
    | none => some doc
    | some (.obj fs) =>
      match mapFrames (1 / 2) fs with
      | none => none
      | some fs2 => some (JVal.obj (setKey kvs "frames" (JVal.obj fs2)))
    | some _ => none
  | _ => none

/-- The observable behaviour of a script's `main` up to the point where files
would be touched. -/
inductive CliAct : Type where
  /-- A usage message was printed to standard output and the process exited
  with the given status, before any file was opened. -/
  | usage : ℕ → CliAct
  /-- Argument validation passed: the script proceeds to open the first
  argument for reading and the second for writing. -/
  | runFiles : String → String → CliAct
deriving DecidableEq

/-- Argument handling of `main` in `scale_config.py` (lines 22-24): `argv` is
the full `sys.argv`, program name included; any length other than 3 prints
the usage line and exits with status 1. -/
def scale_config_cli : List String → CliAct
  | [_, i, o] => .runFiles i o
  | _ => .usage 1

/-- Argument handling of `main` in `scale_frames.py` (lines 17-19), identical
to the Generic Scaler's. -/
def scale_frames_cli : List String → CliAct
  | [_, i, o] => .runFiles i o
  | _ => .usage 1

mutual

/-- The structural shape of a value: every leaf is collapsed to `null`, so
two values have the same `shape` exactly when they have the same nesting,
the same keys in the same order in every object, and the same list lengths. -/
def shape : JVal → JVal
  | .obj kvs => .obj (shapeEntries kvs)
  | .arr xs => .arr (shapeList xs)
  | _ => .null

/-- `shape` on object entries. -/
def shapeEntries : List (String × JVal) → List (String × JVal)
  | [] => []
  | (k, v) :: rest => (k, shape v) :: shapeEntries rest

/-- `shape` on list elements. -/
def shapeList : List JVal → List JVal
  | [] => []
  | v :: rest => shape v :: shapeList rest

end

/-- Is the value a leaf (not an object or a list)? -/
def isLeaf : JVal → Bool
  | .obj _ => false
  | .arr _ => false
  | _ => true

/-- What `scale_destinations` does to the value reached by a path: if the
last step is a dictionary key matching the target rule and the value is
numeric, the value is multiplied by the factor; otherwise the value is
itself recursively processed. -/
def pathResult (f : ℚ) : List Step → JVal → JVal
  | [], v => scale_destinations f v
  | [Step.field k], v =>
    if isNumeric v && targetKey k then JVal.num (numVal v * f)
    else scale_destinations f v
  | [Step.index _], v => scale_destinations f v
  | _ :: s :: rest, v => pathResult f (s :: rest) v

theorem scale_destinations_leaf (f : ℚ) (v : JVal) (h : isLeaf v = true) :
    scale_destinations f v = v := by
  cases v <;> simp [isLeaf] at h <;> rfl

theorem lookupKey_scaleEntries (f : ℚ) (kvs : List (String × JVal)) (k : String) :
    lookupKey (scaleEntries f kvs) k =
      (lookupKey kvs k).map
        (fun v => if isNumeric v && targetKey k then JVal.num (numVal v * f)
                  else scale_destinations f v) := by
  induction kvs with
  | nil => rfl
  | cons kv rest ih =>
    obtain ⟨k0, v0⟩ := kv
    by_cases hk : k0 = k
    · subst hk
      simp [scaleEntries, lookupKey]
    · simp [scaleEntries, lookupKey, hk, ih]

theorem scaleArr_get (f : ℚ) (xs : List JVal) (i : ℕ) :
    (scaleArr f xs)[i]? = (xs[i]?).map (scale_destinations f) := by
  induction xs generalizing i with
  | nil => cases i <;> rfl
  | cons x rest ih => cases i <;> simp [scaleArr, ih]

theorem getPath_leaf (v : JVal) (h : isLeaf v = true) (s : Step) (p : List Step) :
    getPath v (s :: p) = none := by
  cases v <;> simp [isLeaf] at h <;> cases s <;> rfl

theorem pathResult_cons (f : ℚ) (s s' : Step) (rest : List Step) (v : JVal) :
    pathResult f (s :: s' :: rest) v = pathResult f (s' :: rest) v := by
  cases s <;> cases s' <;> rfl

/-- Master lemma for the Generic Scaler: the value reached by any path in
the output is `pathResult` of the value reached in the input. -/
theorem scale_getPath (f : ℚ) (p : List Step) : ∀ (doc v : JVal),
    getPath doc p = some v →
    getPath (scale_destinations f doc) p = some (pathResult f p v) := by
  induction p with
  | nil =>
    intro doc v h
    simp [getPath] at h
    subst h
    simp [getPath, pathResult]
  | cons s rest ih =>
    intro doc v h
    cases s with
    | field k =>
      cases doc with
      | obj kvs =>
        simp only [getPath] at h
        cases hlk : lookupKey kvs k with
        | none => rw [hlk] at h; exact absurd h (by simp)
        | some w =>
          rw [hlk] at h
          have h' : getPath w rest = some v := h
          show getPath (JVal.obj (scaleEntries f kvs)) (Step.field k :: rest) = _
          simp only [getPath, lookupKey_scaleEntries, hlk, Option.map_some']
          cases rest with
          | nil =>
            have hv : w = v := by simpa [getPath] using h'
            subst hv
            simp only [getPath]
            rfl
          | cons s' rest' =>
            cases hc : isNumeric w && targetKey k with
            | true =>
              have hw : isLeaf w = true := by
                cases w with
                | num q => rfl
                | bool b => rfl
                | null => simp [isNumeric] at hc
                | str s0 => simp [isNumeric] at hc
                | arr xs => simp [isNumeric] at hc
                | obj kvs0 => simp [isNumeric] at hc
              rw [getPath_leaf w hw s' rest'] at h'
              exact absurd h' (by simp)
            | false =>
              rw [pathResult_cons]
              exact ih w v h'
      | null => exact absurd h (by simp [getPath])
      | bool b => exact absurd h (by simp [getPath])
      | num q => exact absurd h (by simp [getPath])
      | str s => exact absurd h (by simp [getPath])
      | arr xs => exact absurd h (by simp [getPath])
    | index i =>
      cases doc with
      | arr xs =>
        simp only [getPath] at h
        cases hget : xs[i]? with
        | none => rw [hget] at h; exact absurd h (by simp)
        | some w =>
          rw [hget] at h
          have h' : getPath w rest = some v := h
          show getPath (JVal.arr (scaleArr f xs)) (Step.index i :: rest) = _
          simp only [getPath, scaleArr_get, hget, Option.map_some']
          cases rest with
          | nil =>
            have hv : w = v := by simpa [getPath] using h'
            subst hv
            simp only [getPath]
            rfl
          | cons s' rest' =>
            rw [pathResult_cons]
            exact ih w v h'
      | null => exact absurd h (by simp [getPath])
      | bool b => exact absurd h (by simp [getPath])
      | num q => exact absurd h (by simp [getPath])
      | str s => exact absurd h (by simp [getPath])
      | obj kvs => exact absurd h (by simp [getPath])

theorem pathResult_concat (f : ℚ) (p : List Step) (k : String) (v : JVal) :
    pathResult f (p ++ [Step.field k]) v =
      if isNumeric v && targetKey k then JVal.num (numVal v * f)
      else scale_destinations f v := by
  induction p with
  | nil => rfl
  | cons s p' ih =>
    cases p' with
    | nil => simp only [List.cons_append, List.nil_append, pathResult_cons]; exact ih
    | cons s' p'' => simp only [List.cons_append, pathResult_cons] at ih ⊢; exact ih

theorem getPath_append (a : List Step) : ∀ (doc : JVal) (b : List Step),
    getPath doc (a ++ b) = (getPath doc a).bind (fun w => getPath w b) := by
  induction a with
  | nil => intro doc b; simp [getPath]
  | cons s rest ih =>
    intro doc b
    cases s with
    | field k =>
      cases doc with
      | obj kvs =>
        simp only [List.cons_append, getPath]
        cases lookupKey kvs k with
        | none => simp
        | some w => simp [ih]
      | null => simp [getPath]
      | bool b' => simp [getPath]
      | num q => simp [getPath]
      | str s' => simp [getPath]
      | arr xs => simp [getPath]
    | index i =>
      cases doc with
      | arr xs =>
        simp only [List.cons_append, getPath]
        cases xs[i]? with
        | none => simp
        | some w => simp [ih]
      | null => simp [getPath]
      | bool b' => simp [getPath]
      | num q => simp [getPath]
      | str s' => simp [getPath]
      | obj kvs => simp [getPath]

mutual

theorem scale_shape (f : ℚ) : ∀ v : JVal, shape (scale_destinations f v) = shape v
  | JVal.null => rfl
  | JVal.bool _ => rfl
  | JVal.num _ => rfl
  | JVal.str _ => rfl
  | JVal.arr xs => by
    simp only [scale_destinations, shape]
    rw [scaleArr_shape f xs]
  | JVal.obj kvs => by
    simp only [scale_destinations, shape]
    rw [scaleEntries_shape f kvs]

theorem scaleEntries_shape (f : ℚ) :
    ∀ kvs : List (String × JVal), shapeEntries (scaleEntries f kvs) = shapeEntries kvs
  | [] => rfl
  | (k, v) :: rest => by
    simp only [scaleEntries, shapeEntries]
    rw [scaleEntries_shape f rest]
    cases hc : isNumeric v && targetKey k with
    | true =>
      have hv : shape v = JVal.null := by
        cases v with
        | num q => rfl
        | bool b => rfl
        | null => simp [isNumeric] at hc
        | str s => simp [isNumeric] at hc
        | arr xs => simp [isNumeric] at hc
        | obj kvs2 => simp [isNumeric] at hc
      simp [shape, hv]
    | false => simp [scale_shape f v]

theorem scaleArr_shape (f : ℚ) :
    ∀ xs : List JVal, shapeList (scaleArr f xs) = shapeList xs
  | [] => rfl
  | v :: rest => by
    simp only [scaleArr, shapeList]
    rw [scaleArr_shape f rest, scale_shape f v]

end

mutual

theorem scale_comp (f g : ℚ) :
    ∀ v : JVal, scale_destinations f (scale_destinations g v) = scale_destinations (g * f) v
  | JVal.null => rfl
  | JVal.bool _ => rfl
  | JVal.num _ => rfl
  | JVal.str _ => rfl
  | JVal.arr xs => by
    simp only [scale_destinations]
    rw [scaleArr_comp f g xs]
  | JVal.obj kvs => by
    simp only [scale_destinations]
    rw [scaleEntries_comp f g kvs]

theorem scaleEntries_comp (f g : ℚ) :
    ∀ kvs : List (String × JVal), scaleEntries f (scaleEntries g kvs) = scaleEntries (g * f) kvs
  | [] => rfl
  | (k, v) :: rest => by
    simp only [scaleEntries]
    rw [scaleEntries_comp f g rest]
    cases hc : isNumeric v && targetKey k with
    | true =>
      have ht : targetKey k = true := by
        rcases Bool.and_eq_true_iff.mp hc with ⟨_, ht⟩
        exact ht
      simp [scaleEntries, isNumeric, ht, numVal, mul_assoc]
    | false =>
      have hn : isNumeric (scale_destinations g v) = isNumeric v := by
        cases v <;> rfl
      have hc2 : (isNumeric (scale_destinations g v) && targetKey k) = false := by
        rw [hn]; exact hc
      simp [scaleEntries, hc2, scale_comp f g v]

theorem scaleArr_comp (f g : ℚ) :
    ∀ xs : List JVal, scaleArr f (scaleArr g xs) = scaleArr (g * f) xs
  | [] => rfl
  | v :: rest => by
    simp only [scaleArr]
    rw [scaleArr_comp f g rest, scale_comp f g v]

end

/-- Is the value a JSON boolean? -/
def isBool : JVal → Bool
  | .bool _ => true
  | _ => false

mutual

/-- No dictionary entry anywhere in the value has a target-matching key with
a boolean value (the one shape on which scaling by factor 1 is not the
identity). -/
def noTargetedBool : JVal → Bool
  | .obj kvs => noTargetedBoolEntries kvs
  | .arr xs => noTargetedBoolArr xs
  | _ => true

/-- `noTargetedBool` on object entries. -/
def noTargetedBoolEntries : List (String × JVal) → Bool
  | [] => true
  | (k, v) :: rest =>
    !(targetKey k && isBool v) && noTargetedBool v && noTargetedBoolEntries rest

/-- `noTargetedBool` on list elements. -/
def noTargetedBoolArr : List JVal → Bool
  | [] => true
  | v :: rest => noTargetedBool v && noTargetedBoolArr rest

end

mutual

theorem scale_one (v : JVal) (h : noTargetedBool v = true) :
    scale_destinations 1 v = v := by
  cases v with
  | null => rfl
  | bool _ => rfl
  | num _ => rfl
  | str _ => rfl
  | arr xs =>
    simp only [scale_destinations]
    rw [scaleArr_one xs (by simpa [noTargetedBool] using h)]
  | obj kvs =>
    simp only [scale_destinations]
    rw [scaleEntries_one kvs (by simpa [noTargetedBool] using h)]

theorem scaleEntries_one :
    ∀ kvs : List (String × JVal), noTargetedBoolEntries kvs = true →
      scaleEntries 1 kvs = kvs
  | [], _ => rfl
  | (k, v) :: rest, h => by
    rw [noTargetedBoolEntries, Bool.and_eq_true, Bool.and_eq_true] at h
    obtain ⟨⟨hkb, hv⟩, hrest⟩ := h
    simp only [scaleEntries]
    rw [scaleEntries_one rest hrest]
    cases hc : isNumeric v && targetKey k with
    | true =>
      rcases Bool.and_eq_true_iff.mp hc with ⟨hn, ht⟩
      cases v with
      | num q => simp [numVal]
      | bool b => simp [ht, isBool] at hkb
      | null => simp [isNumeric] at hn
      | str s => simp [isNumeric] at hn
      | arr xs => simp [isNumeric] at hn
      | obj kvs2 => simp [isNumeric] at hn
    | false => simp [scale_one v hv]

theorem scaleArr_one :
    ∀ xs : List JVal, noTargetedBoolArr xs = true → scaleArr 1 xs = xs
  | [], _ => rfl
  | v :: rest, h => by
    rw [noTargetedBoolArr, Bool.and_eq_true] at h
    simp only [scaleArr]
    rw [scaleArr_one rest h.2, scale_one v h.1]

end

/-- C1: for every JSON document and every dictionary entry at any nesting
depth (including inside lists) whose key contains `dest_x` or `dest_y` and
whose value is numeric, the Generic Scaler's output replaces that value with
`value * factor`, exactly (numbers are rationals in this model, so the
multiplication is exact); the script's fixed factor is 0.5. -/
theorem C1_target_numeric_scaled (f : ℚ) (doc : JVal) (p : List Step)
    (k : String) (v : JVal)
    (hget : getPath doc (p ++ [Step.field k]) = some v)
    (hnum : isNumeric v = true) (hkey : targetKey k = true) :
    getPath (scale_destinations f doc) (p ++ [Step.field k]) =
      some (JVal.num (numVal v * f)) := by
  have h := scale_getPath f (p ++ [Step.field k]) doc v hget
  rw [pathResult_concat] at h
  rw [h]
  simp [hnum, hkey]

theorem C1_target_numeric_scaled_witness :
    getPath
      (scale_destinations (1 / 2)
        (JVal.obj [("a", JVal.arr [JVal.obj [("dest_x", JVal.num 4)]])]))
      ([Step.field "a", Step.index 0] ++ [Step.field "dest_x"]) =
      some (JVal.num (numVal (JVal.num 4) * (1 / 2))) :=
  C1_target_numeric_scaled (1 / 2)
    (JVal.obj [("a", JVal.arr [JVal.obj [("dest_x", JVal.num 4)]])])
    [Step.field "a", Step.index 0] "dest_x" (JVal.num 4)
    (by rfl) (by rfl) (by decide)

/-- C3: a dictionary entry whose key matches the target rule but whose value
is not numeric is not scaled: the value is recursed into, so matching-key
numeric entries deeper inside it are still scaled. -/
theorem C3_nonnumeric_target_recursed (f : ℚ) (doc : JVal) (p : List Step)
    (k : String) (v : JVal)
    (hget : getPath doc (p ++ [Step.field k]) = some v)
    (hkey : targetKey k = true) (hnum : isNumeric v = false) :
    getPath (scale_destinations f doc) (p ++ [Step.field k]) =
      some (scale_destinations f v) ∧
    ∀ (q : List Step) (k2 : String) (w : JVal),
      getPath v (q ++ [Step.field k2]) = some w → isNumeric w = true →
      targetKey k2 = true →
      getPath (scale_destinations f doc)
          ((p ++ [Step.field k]) ++ (q ++ [Step.field k2])) =
        some (JVal.num (numVal w * f)) := by
  constructor
  · have h := scale_getPath f (p ++ [Step.field k]) doc v hget
    rw [pathResult_concat] at h
    rw [h]
    simp [hnum]
  · intro q k2 w hw hwn hk2
    have e : (p ++ [Step.field k] ++ q) ++ [Step.field k2] =
        (p ++ [Step.field k]) ++ (q ++ [Step.field k2]) := by simp
    have hlong : getPath doc ((p ++ [Step.field k] ++ q) ++ [Step.field k2]) = some w := by
      rw [e, getPath_append, hget]
      simpa using hw
    have h := scale_getPath f ((p ++ [Step.field k] ++ q) ++ [Step.field k2]) doc w hlong
    rw [pathResult_concat] at h
    rw [← e, h]
    simp [hwn, hk2]

theorem C3_nonnumeric_target_recursed_witness :
    getPath
        (scale_destinations (1 / 2) (JVal.obj [("dest_x_group", JVal.obj [("dest_x", JVal.num 4)])]))
        ([] ++ [Step.field "dest_x_group"]) =
      some (scale_destinations (1 / 2) (JVal.obj [("dest_x", JVal.num 4)])) ∧
    getPath
        (scale_destinations (1 / 2) (JVal.obj [("dest_x_group", JVal.obj [("dest_x", JVal.num 4)])]))
        (([] ++ [Step.field "dest_x_group"]) ++ ([] ++ [Step.field "dest_x"])) =
      some (JVal.num (numVal (JVal.num 4) * (1 / 2))) := by
  have h := C3_nonnumeric_target_recursed (1 / 2)
    (JVal.obj [("dest_x_group", JVal.obj [("dest_x", JVal.num 4)])])
    [] "dest_x_group" (JVal.obj [("dest_x", JVal.num 4)])
    (by rfl) (by decide) (by rfl)
  exact ⟨h.1, h.2 [] "dest_x" (JVal.num 4) (by rfl) (by rfl) (by decide)⟩

/-- C4: a target-keyed entry whose value is the boolean `true` or `false` is
treated as numeric (Python `bool` is a subclass of `int`) and replaced by
`value * 0.5`: `true` becomes 0.5 and `false` becomes 0. -/
theorem C4_bool_treated_as_numeric (doc : JVal) (p : List Step) (k : String)
    (b : Bool)
    (hget : getPath doc (p ++ [Step.field k]) = some (JVal.bool b))
    (hkey : targetKey k = true) :
    getPath (scale_destinations (1 / 2) doc) (p ++ [Step.field k]) =
      some (JVal.num (if b then 1 / 2 else 0)) := by
  have h := scale_getPath (1 / 2) (p ++ [Step.field k]) doc (JVal.bool b) hget
  rw [pathResult_concat] at h
  simp only [isNumeric, hkey, Bool.and_true, numVal, if_true] at h
  rw [h]
  cases b <;> norm_num

theorem C4_bool_treated_as_numeric_witness :
    (getPath (scale_destinations (1 / 2) (JVal.obj [("dest_y", JVal.bool true)]))
        ([] ++ [Step.field "dest_y"]) =
      some (JVal.num (if true then 1 / 2 else 0))) ∧
    (getPath (scale_destinations (1 / 2) (JVal.obj [("dest_y", JVal.bool false)]))
        ([] ++ [Step.field "dest_y"]) =
      some (JVal.num (if false then 1 / 2 else 0))) :=
  ⟨C4_bool_treated_as_numeric (JVal.obj [("dest_y", JVal.bool true)]) [] "dest_y" true
      (by rfl) (by decide),
   C4_bool_treated_as_numeric (JVal.obj [("dest_y", JVal.bool false)]) [] "dest_y" false
      (by rfl) (by decide)⟩

/-- C7 counterexample: as stated, the claim includes "applying it with factor
1 is a no-op", but on a document with a boolean at a targeted key the
factor-1 pass replaces `true` by the number 1 (Python: `True * 1 == 1`, and
`json.dump` then writes `1`, not `true`), so the transform is not the
identity there. -/
theorem C7_factor_one_counterexample :
    scale_destinations 1 (JVal.obj [("dest_x", JVal.bool true)]) ≠
      JVal.obj [("dest_x", JVal.bool true)] := by
  have ht : targetKey "dest_x" = true := by decide
  have h1 : scale_destinations 1 (JVal.obj [("dest_x", JVal.bool true)]) =
      JVal.obj [("dest_x", JVal.num 1)] := by
    simp [scale_destinations, scaleEntries, isNumeric, numVal, ht]
  rw [h1]
  intro h
  simp at h

/-- C7 (amended): applying the Generic Scaler twice with factor 0.5 scales
every targeted numeric value by 0.25 relative to the original, and the
transform is not idempotent; applying it with factor 1 is a no-op on every
document that has no boolean value at a targeted key (a targeted boolean is
instead replaced by the number 1 or 0). -/
theorem C7_double_scaling_amended :
    (∀ (doc : JVal) (p : List Step) (k : String) (q : ℚ),
        getPath doc (p ++ [Step.field k]) = some (JVal.num q) →
        targetKey k = true →
        getPath (scale_destinations (1 / 2) (scale_destinations (1 / 2) doc))
            (p ++ [Step.field k]) = some (JVal.num (q * (1 / 4)))) ∧
    scale_destinations (1 / 2)
        (scale_destinations (1 / 2) (JVal.obj [("dest_x", JVal.num 4)])) ≠
      scale_destinations (1 / 2) (JVal.obj [("dest_x", JVal.num 4)]) ∧
    ∀ doc : JVal, noTargetedBool doc = true → scale_destinations 1 doc = doc := by
  have ht : targetKey "dest_x" = true := by decide
  refine ⟨?_, ?_, fun doc h => scale_one doc h⟩
  · intro doc p k q hget hkey
    rw [scale_comp]
    have e : (1 / 2 : ℚ) * (1 / 2) = 1 / 4 := by norm_num
    rw [e]
    have h := scale_getPath (1 / 4) (p ++ [Step.field k]) doc (JVal.num q) hget
    rw [pathResult_concat] at h
    simp only [isNumeric, hkey, Bool.and_true, numVal, if_true] at h
    exact h
  · have e1 : scale_destinations (1 / 2) (JVal.obj [("dest_x", JVal.num 4)]) =
        JVal.obj [("dest_x", JVal.num 2)] := by
      simp only [scale_destinations, scaleEntries, isNumeric, ht, Bool.and_self,
        Bool.true_and, if_true, numVal]
      norm_num
    have e2 : scale_destinations (1 / 2) (JVal.obj [("dest_x", JVal.num 2)]) =
        JVal.obj [("dest_x", JVal.num 1)] := by
      simp only [scale_destinations, scaleEntries, isNumeric, ht, Bool.and_self,
        Bool.true_and, if_true, numVal]
      norm_num
    rw [e1, e2]
    intro h
    simp at h

theorem C7_double_scaling_amended_witness :
    (getPath
        (scale_destinations (1 / 2)
          (scale_destinations (1 / 2) (JVal.obj [("dest_y", JVal.num 8)])))
        ([] ++ [Step.field "dest_y"]) = some (JVal.num (8 * (1 / 4)))) ∧
    scale_destinations 1 (JVal.obj [("dest_y", JVal.num 8)]) =
      JVal.obj [("dest_y", JVal.num 8)] :=
  ⟨C7_double_scaling_amended.1 (JVal.obj [("dest_y", JVal.num 8)]) [] "dest_y" 8
      (by rfl) (by decide),
   C7_double_scaling_amended.2.2 (JVal.obj [("dest_y", JVal.num 8)]) (by decide)⟩

/-- Is the string one of the four field names `scale_dict` rescales? -/
def isXYWH (d : String) : Bool :=
  d = "x" || d = "y" || d = "w" || d = "h"

/-- Paths (relative to a dictionary handed to `scale_dict`) whose value is
rescaled: exactly one of the four field names. -/
def xywhPath : List Step → Bool
  | [Step.field d] => isXYWH d
  | _ => false

/-- Paths (relative to a frame object) rescaled by a single guarded update
of the sub-object `name`: the field `name` followed by an `x`/`y`/`w`/`h`
field. -/
def subPath (name : String) : List Step → Bool
  | Step.field a :: rest => a = name && xywhPath rest
  | _ => false

/-- Paths (relative to a frame object) whose value the frames loop rescales. -/
def frameTargetPath (p : List Step) : Bool :=
  subPath "frame" p || subPath "spriteSourceSize" p || subPath "sourceSize" p

/-- Paths (relative to the document) whose value the Frame Scaler rescales:
`frames`, any frame name, a rescaled sub-object name, and one of `x`, `y`,
`w`, `h`. -/
def framesTarget : List Step → Bool
  | Step.field a :: Step.field _ :: rest => a = "frames" && frameTargetPath rest
  | _ => false

theorem lookupKey_of_any (kvs : List (String × JVal)) (k : String)
    (h : kvs.any (fun kv => kv.1 = k) = true) : ∃ w, lookupKey kvs k = some w := by
  induction kvs with
  | nil => simp at h
  | cons kv rest ih =>
    by_cases hk : kv.1 = k
    · exact ⟨kv.2, by simp [lookupKey, hk]⟩
    · rw [List.any_cons, Bool.or_eq_true] at h
      cases h with
      | inl h => exact absurd (of_decide_eq_true h) hk
      | inr h =>
        obtain ⟨w, hw⟩ := ih h
        exact ⟨w, by simp [lookupKey, hk, hw]⟩

theorem lookupKey_setKey_ne (kvs : List (String × JVal)) (k k' : String)
    (v : JVal) (h : k' ≠ k) : lookupKey (setKey kvs k v) k' = lookupKey kvs k' := by
  induction kvs with
  | nil => rfl
  | cons kv rest ih =>
    by_cases hk : kv.1 = k
    · simp [setKey, hk, lookupKey, Ne.symm h]
    · simp [setKey, hk, lookupKey, ih]

theorem lookupKey_setKey_self (kvs : List (String × JVal)) (k : String)
    (v w0 : JVal) (h : lookupKey kvs k = some w0) :
    lookupKey (setKey kvs k v) k = some v := by
  induction kvs with
  | nil => simp [lookupKey] at h
  | cons kv rest ih =>
    by_cases hk : kv.1 = k
    · simp [setKey, hk, lookupKey]
    · simp [lookupKey, hk] at h
      simp [setKey, hk, lookupKey, ih h]

theorem setKey_get_ne (kvs : List (String × JVal)) (k : String) (v : JVal)
    (i : ℕ) (e : String × JVal) (hget : kvs[i]? = some e) (hne : e.1 ≠ k) :
    (setKey kvs k v)[i]? = some e := by
  induction kvs generalizing i with
  | nil => simp at hget
  | cons kv rest ih =>
    by_cases hk : kv.1 = k
    · cases i with
      | zero =>
        simp at hget
        subst hget
        exact absurd hk hne
      | succ n =>
        simp at hget
        simp [setKey, hk, hget]
    · cases i with
      | zero =>
        simp at hget
        subst hget
        simp [setKey, hk]
      | succ n =>
        simp at hget
        simp [setKey, hk, ih n hget]

theorem setKey_shapeEntries (kvs : List (String × JVal)) (k : String)
    (v w0 : JVal) (hlk : lookupKey kvs k = some w0) (hsh : shape v = shape w0) :
    shapeEntries (setKey kvs k v) = shapeEntries kvs := by
  induction kvs with
  | nil => simp [lookupKey] at hlk
  | cons kv rest ih =>
    obtain ⟨k0, v0⟩ := kv
    by_cases hk : k0 = k
    · subst hk
      simp [lookupKey] at hlk
      subst hlk
      simp [setKey, shapeEntries, hsh]
    · simp [lookupKey, hk] at hlk
      simp [setKey, hk, shapeEntries, ih hlk]

theorem shapeEntries_fst (kvs : List (String × JVal)) :
    (shapeEntries kvs).map Prod.fst = kvs.map Prod.fst := by
  induction kvs with
  | nil => rfl
  | cons kv rest ih =>
    obtain ⟨k0, v0⟩ := kv
    simp [shapeEntries, ih]

theorem scale_value_isNumeric (w : JVal) (f : ℚ) (n : ℤ)
    (h : scale_value w f = some n) : isNumeric w = true := by
  by_cases hn : isNumeric w = true
  · exact hn
  · rw [scale_value, if_neg hn] at h
    exact absurd h (by simp)

theorem numeric_shape (w : JVal) (h : isNumeric w = true) : shape w = JVal.null := by
  cases w with
  | num q => rfl
  | bool b => rfl
  | null => simp [isNumeric] at h
  | str s => simp [isNumeric] at h
  | arr xs => simp [isNumeric] at h
  | obj kvs => simp [isNumeric] at h

/-- Any successful `stepKey` either leaves the value untouched (key not
present) or rewrites the first entry at the key of a dictionary to a
rounded number. -/
theorem numeric_isLeaf (w : JVal) (h : isNumeric w = true) : isLeaf w = true := by
  cases w with
  | num q => rfl
  | bool b => rfl
  | null => simp [isNumeric] at h
  | str s => simp [isNumeric] at h
  | arr xs => simp [isNumeric] at h
  | obj kvs => simp [isNumeric] at h

theorem stepKey_cases (f : ℚ) (k : String) (v v2 : JVal)
    (h : stepKey f k v = some v2) :
    v2 = v ∨
    (∃ kvs w n, v = JVal.obj kvs ∧ lookupKey kvs k = some w ∧
      scale_value w f = some n ∧
      v2 = JVal.obj (setKey kvs k (JVal.num (n : ℚ)))) := by
  cases hpc : pyContains v k with
  | none => simp [stepKey, hpc] at h
  | some c =>
    cases c with
    | false =>
      simp only [stepKey, hpc, Option.some.injEq] at h
      exact Or.inl h.symm
    | true =>
      cases v with
      | obj kvs =>
        cases hlk : lookupKey kvs k with
        | none => simp [stepKey, hpc, hlk] at h
        | some w =>
          cases hsv : scale_value w f with
          | none => simp [stepKey, hpc, hlk, hsv] at h
          | some n =>
            simp only [stepKey, hpc, hlk, hsv, Option.some.injEq] at h
            exact Or.inr ⟨kvs, w, n, rfl, hlk, hsv, h.symm⟩
      | null => simp [stepKey, hpc] at h
      | bool b => simp [stepKey, hpc] at h
      | num q => simp [stepKey, hpc] at h
      | str s => simp [stepKey, hpc] at h
      | arr xs => simp [stepKey, hpc] at h

theorem stepKey_shape (f : ℚ) (k : String) (v v2 : JVal)
    (h : stepKey f k v = some v2) : shape v2 = shape v := by
  rcases stepKey_cases f k v v2 h with rfl | ⟨kvs, w, n, rfl, hlk, hsv, rfl⟩
  · rfl
  · simp only [shape]
    rw [setKey_shapeEntries kvs k _ w hlk
      (by simp [shape, numeric_shape w (scale_value_isNumeric w f n hsv)])]

theorem stepKey_entries (f : ℚ) (k : String) (kvs : List (String × JVal))
    (v2 : JVal) (h : stepKey f k (JVal.obj kvs) = some v2) :
    ∃ kvs2, v2 = JVal.obj kvs2 ∧
      ∀ (i : ℕ) (e : String × JVal), kvs[i]? = some e → e.1 ≠ k →
        kvs2[i]? = some e := by
  rcases stepKey_cases f k (JVal.obj kvs) v2 h with
    rfl | ⟨kvs0, w, n, hv, hlk, hsv, rfl⟩
  · exact ⟨kvs, rfl, fun i e hi _ => hi⟩
  · have hk : kvs = kvs0 := JVal.obj.inj hv
    subst hk
    exact ⟨_, rfl, fun i e hi hne => setKey_get_ne kvs k _ i e hi hne⟩

theorem stepKey_leafPath (f : ℚ) (k : String) (v v2 : JVal)
    (h : stepKey f k v = some v2) (p : List Step) (w : JVal)
    (hp : p ≠ [Step.field k]) (hget : getPath v p = some w)
    (hleaf : isLeaf w = true) : getPath v2 p = some w := by
  rcases stepKey_cases f k v v2 h with rfl | ⟨kvs, w0, n, rfl, hlk, hsv, rfl⟩
  · exact hget
  · cases p with
    | nil =>
      have hw : JVal.obj kvs = w := Option.some.inj hget
      rw [← hw] at hleaf
      simp [isLeaf] at hleaf
    | cons s rest =>
      cases s with
      | field k' =>
        simp only [getPath] at hget ⊢
        by_cases hk : k' = k
        · subst hk
          rw [hlk] at hget
          rw [lookupKey_setKey_self kvs k' _ w0 hlk]
          have hget' : getPath w0 rest = some w := hget
          cases rest with
          | nil => exact absurd rfl hp
          | cons s' rest' =>
            have hw0 : isLeaf w0 = true :=
              numeric_isLeaf w0 (scale_value_isNumeric w0 f n hsv)
            rw [getPath_leaf w0 hw0 s' rest'] at hget'
            exact absurd hget' (by simp)
        · rw [lookupKey_setKey_ne kvs k k' _ hk]
          exact hget
      | index i =>
        exact absurd hget (by simp [getPath])

theorem stepKey_leaf_id (f : ℚ) (k : String) (v v2 : JVal)
    (hleaf : isLeaf v = true) (h : stepKey f k v = some v2) : v2 = v := by
  rcases stepKey_cases f k v v2 h with rfl | ⟨kvs, w, n, rfl, _, _, rfl⟩
  · rfl
  · simp [isLeaf] at hleaf

theorem scale_dict_parts (f : ℚ) (v v2 : JVal) (h : scale_dict f v = some v2) :
    ∃ va vb vc, stepKey f "x" v = some va ∧ stepKey f "y" va = some vb ∧
      stepKey f "w" vb = some vc ∧ stepKey f "h" vc = some v2 := by
  cases h1 : stepKey f "x" v with
  | none => simp [scale_dict, h1] at h
  | some va =>
    cases h2 : stepKey f "y" va with
    | none => simp [scale_dict, h1, h2] at h
    | some vb =>
      cases h3 : stepKey f "w" vb with
      | none => simp [scale_dict, h1, h2, h3] at h
      | some vc =>
        simp only [scale_dict, h1, h2, h3] at h
        exact ⟨va, vb, vc, rfl, h2, h3, h⟩

theorem scale_dict_shape (f : ℚ) (v v2 : JVal) (h : scale_dict f v = some v2) :
    shape v2 = shape v := by
  obtain ⟨va, vb, vc, h1, h2, h3, h4⟩ := scale_dict_parts f v v2 h
  rw [stepKey_shape f "h" vc v2 h4, stepKey_shape f "w" vb vc h3,
    stepKey_shape f "y" va vb h2, stepKey_shape f "x" v va h1]

theorem scale_dict_leaf_id (f : ℚ) (v v2 : JVal) (hleaf : isLeaf v = true)
    (h : scale_dict f v = some v2) : v2 = v := by
  obtain ⟨va, vb, vc, h1, h2, h3, h4⟩ := scale_dict_parts f v v2 h
  have e1 := stepKey_leaf_id f "x" v va hleaf h1
  rw [e1] at h2
  have e2 := stepKey_leaf_id f "y" v vb hleaf h2
  rw [e2] at h3
  have e3 := stepKey_leaf_id f "w" v vc hleaf h3
  rw [e3] at h4
  exact stepKey_leaf_id f "h" v v2 hleaf h4

theorem xywhPath_ne (p : List Step) (d : String) (hp : xywhPath p = false)
    (hd : isXYWH d = true) : p ≠ [Step.field d] := by
  intro he
  subst he
  rw [xywhPath] at hp
  rw [hd] at hp
  exact absurd hp (by simp)

theorem scale_dict_leafPath (f : ℚ) (v v2 : JVal) (h : scale_dict f v = some v2)
    (p : List Step) (w : JVal) (hp : xywhPath p = false)
    (hget : getPath v p = some w) (hleaf : isLeaf w = true) :
    getPath v2 p = some w := by
  obtain ⟨va, vb, vc, h1, h2, h3, h4⟩ := scale_dict_parts f v v2 h
  have g1 := stepKey_leafPath f "x" v va h1 p w (xywhPath_ne p "x" hp (by decide)) hget hleaf
  have g2 := stepKey_leafPath f "y" va vb h2 p w (xywhPath_ne p "y" hp (by decide)) g1 hleaf
  have g3 := stepKey_leafPath f "w" vb vc h3 p w (xywhPath_ne p "w" hp (by decide)) g2 hleaf
  exact stepKey_leafPath f "h" vc v2 h4 p w (xywhPath_ne p "h" hp (by decide)) g3 hleaf

theorem isXYWH_ne (k : String) (hk : isXYWH k = false) :
    k ≠ "x" ∧ k ≠ "y" ∧ k ≠ "w" ∧ k ≠ "h" := by
  refine ⟨?_, ?_, ?_, ?_⟩ <;> intro he <;> subst he <;> exact absurd hk (by decide)

theorem scale_dict_entries (f : ℚ) (kvs : List (String × JVal)) (v2 : JVal)
    (h : scale_dict f (JVal.obj kvs) = some v2) :
    ∃ kvs2, v2 = JVal.obj kvs2 ∧
      ∀ (i : ℕ) (e : String × JVal), kvs[i]? = some e → isXYWH e.1 = false →
        kvs2[i]? = some e := by
  obtain ⟨va, vb, vc, h1, h2, h3, h4⟩ := scale_dict_parts f (JVal.obj kvs) v2 h
  obtain ⟨ka, rfl, ga⟩ := stepKey_entries f "x" kvs va h1
  obtain ⟨kb, rfl, gb⟩ := stepKey_entries f "y" ka vb h2
  obtain ⟨kc, rfl, gc⟩ := stepKey_entries f "w" kb vc h3
  obtain ⟨kd, rfl, gd⟩ := stepKey_entries f "h" kc v2 h4
  refine ⟨kd, rfl, fun i e hi hne => ?_⟩
  obtain ⟨nx, ny, nw, nh⟩ := isXYWH_ne e.1 hne
  exact gd i e (gc i e (gb i e (ga i e hi nx) ny) nw) nh

theorem updateSub_cases (f : ℚ) (name : String) (fr fr2 : JVal)
    (h : updateSub f name fr = some fr2) :
    fr2 = fr ∨
    (∃ kvs w w2, fr = JVal.obj kvs ∧ lookupKey kvs name = some w ∧
      scale_dict f w = some w2 ∧ fr2 = JVal.obj (setKey kvs name w2)) := by
  cases hpc : pyContains fr name with
  | none => simp [updateSub, hpc] at h
  | some c =>
    cases c with
    | false =>
      simp only [updateSub, hpc, Option.some.injEq] at h
      exact Or.inl h.symm
    | true =>
      cases fr with
      | obj kvs =>
        cases hlk : lookupKey kvs name with
        | none => simp [updateSub, hpc, hlk] at h
        | some w =>
          cases hsd : scale_dict f w with
          | none => simp [updateSub, hpc, hlk, hsd] at h
          | some w2 =>
            simp only [updateSub, hpc, hlk, hsd, Option.some.injEq] at h
            exact Or.inr ⟨kvs, w, w2, rfl, hlk, hsd, h.symm⟩
      | null => simp [updateSub, hpc] at h
      | bool b => simp [updateSub, hpc] at h
      | num q => simp [updateSub, hpc] at h
      | str s => simp [updateSub, hpc] at h
      | arr xs => simp [updateSub, hpc] at h

theorem updateSub_shape (f : ℚ) (name : String) (fr fr2 : JVal)
    (h : updateSub f name fr = some fr2) : shape fr2 = shape fr := by
  rcases updateSub_cases f name fr fr2 h with rfl | ⟨kvs, w, w2, rfl, hlk, hsd, rfl⟩
  · rfl
  · simp only [shape]
    rw [setKey_shapeEntries kvs name w2 w hlk (scale_dict_shape f w w2 hsd)]

theorem updateSub_leafPath (f : ℚ) (name : String) (fr fr2 : JVal)
    (h : updateSub f name fr = some fr2) (p : List Step) (w : JVal)
    (hsp : subPath name p = false) (hget : getPath fr p = some w)
    (hleaf : isLeaf w = true) : getPath fr2 p = some w := by
  rcases updateSub_cases f name fr fr2 h with rfl | ⟨kvs, w0, w2, rfl, hlk, hsd, rfl⟩
  · exact hget
  · cases p with
    | nil =>
      have hw : JVal.obj kvs = w := Option.some.inj hget
      rw [← hw] at hleaf
      simp [isLeaf] at hleaf
    | cons s rest =>
      cases s with
      | field k' =>
        simp only [getPath] at hget ⊢
        by_cases hk : k' = name
        · subst hk
          rw [hlk] at hget
          rw [lookupKey_setKey_self kvs k' w2 w0 hlk]
          have hget' : getPath w0 rest = some w := hget
          have hrest : xywhPath rest = false := by
            rw [subPath] at hsp
            simpa using hsp
          exact scale_dict_leafPath f w0 w2 hsd rest w hrest hget' hleaf
        · rw [lookupKey_setKey_ne kvs name k' w2 hk]
          exact hget
      | index i =>
        exact absurd hget (by simp [getPath])

theorem scaleFrame_parts (f : ℚ) (fr fr2 : JVal) (h : scaleFrame f fr = some fr2) :
    ∃ fa fb, updateSub f "frame" fr = some fa ∧
      updateSub f "spriteSourceSize" fa = some fb ∧
      updateSub f "sourceSize" fb = some fr2 := by
  cases h1 : updateSub f "frame" fr with
  | none => simp [scaleFrame, h1] at h
  | some fa =>
    cases h2 : updateSub f "spriteSourceSize" fa with
    | none => simp [scaleFrame, h1, h2] at h
    | some fb =>
      simp only [scaleFrame, h1, h2] at h
      exact ⟨fa, fb, rfl, h2, h⟩

theorem scaleFrame_shape (f : ℚ) (fr fr2 : JVal) (h : scaleFrame f fr = some fr2) :
    shape fr2 = shape fr := by
  obtain ⟨fa, fb, h1, h2, h3⟩ := scaleFrame_parts f fr fr2 h
  rw [updateSub_shape f "sourceSize" fb fr2 h3,
    updateSub_shape f "spriteSourceSize" fa fb h2,
    updateSub_shape f "frame" fr fa h1]

theorem scaleFrame_leafPath (f : ℚ) (fr fr2 : JVal) (h : scaleFrame f fr = some fr2)
    (p : List Step) (w : JVal) (hfp : frameTargetPath p = false)
    (hget : getPath fr p = some w) (hleaf : isLeaf w = true) :
    getPath fr2 p = some w := by
  obtain ⟨fa, fb, h1, h2, h3⟩ := scaleFrame_parts f fr fr2 h
  rw [frameTargetPath] at hfp
  simp only [Bool.or_eq_false_iff] at hfp
  obtain ⟨⟨hp1, hp2⟩, hp3⟩ := hfp
  have g1 := updateSub_leafPath f "frame" fr fa h1 p w hp1 hget hleaf
  have g2 := updateSub_leafPath f "spriteSourceSize" fa fb h2 p w hp2 g1 hleaf
  exact updateSub_leafPath f "sourceSize" fb fr2 h3 p w hp3 g2 hleaf

theorem mapFrames_shapeEntries (f : ℚ) :
    ∀ (fs fs2 : List (String × JVal)), mapFrames f fs = some fs2 →
      shapeEntries fs2 = shapeEntries fs := by
  intro fs
  induction fs with
  | nil =>
    intro fs2 h
    simp only [mapFrames, Option.some.injEq] at h
    rw [← h]
  | cons kv rest ih =>
    intro fs2 h
    obtain ⟨k, fr⟩ := kv
    cases h1 : scaleFrame f fr with
    | none => simp [mapFrames, h1] at h
    | some fr2 =>
      cases h2 : mapFrames f rest with
      | none => simp [mapFrames, h1, h2] at h
      | some rest2 =>
        simp only [mapFrames, h1, h2, Option.some.injEq] at h
        rw [← h]
        simp only [shapeEntries]
        rw [ih rest2 h2, scaleFrame_shape f fr fr2 h1]

theorem mapFrames_lookup (f : ℚ) :
    ∀ (fs fs2 : List (String × JVal)), mapFrames f fs = some fs2 →
      ∀ (fname : String) (fr : JVal), lookupKey fs fname = some fr →
        ∃ fr2, scaleFrame f fr = some fr2 ∧ lookupKey fs2 fname = some fr2 := by
  intro fs
  induction fs with
  | nil =>
    intro fs2 h fname fr hlk
    simp [lookupKey] at hlk
  | cons kv rest ih =>
    intro fs2 h fname fr hlk
    obtain ⟨k, fr0⟩ := kv
    cases h1 : scaleFrame f fr0 with
    | none => simp [mapFrames, h1] at h
    | some fr02 =>
      cases h2 : mapFrames f rest with
      | none => simp [mapFrames, h1, h2] at h
      | some rest2 =>
        simp only [mapFrames, h1, h2, Option.some.injEq] at h
        rw [← h]
        by_cases hk : k = fname
        · subst hk
          simp [lookupKey] at hlk
          subst hlk
          exact ⟨fr02, h1, by simp [lookupKey]⟩
        · simp [lookupKey, hk] at hlk
          obtain ⟨fr2, hsf, hlk2⟩ := ih rest2 h2 fname fr hlk
          exact ⟨fr2, hsf, by simp [lookupKey, hk, hlk2]⟩

theorem scale_frames_doc_cases (doc out : JVal) (h : scale_frames_doc doc = some out) :
    (∃ kvs, doc = JVal.obj kvs ∧ lookupKey kvs "frames" = none ∧ out = doc) ∨
    (∃ kvs fs fs2, doc = JVal.obj kvs ∧
      lookupKey kvs "frames" = some (JVal.obj fs) ∧
      mapFrames (1 / 2) fs = some fs2 ∧
      out = JVal.obj (setKey kvs "frames" (JVal.obj fs2))) := by
  cases doc with
  | obj kvs =>
    cases hlk : lookupKey kvs "frames" with
    | none =>
      simp only [scale_frames_doc, hlk, Option.some.injEq] at h
      exact Or.inl ⟨kvs, rfl, hlk, h.symm⟩
    | some fv =>
      cases fv with
      | obj fs =>
        cases hmf : mapFrames (1 / 2) fs with
        | none =>
          simp only [scale_frames_doc, hlk, hmf] at h
          exact absurd h (by simp)
        | some fs2 =>
          simp only [scale_frames_doc, hlk, hmf, Option.some.injEq] at h
          exact Or.inr ⟨kvs, fs, fs2, rfl, hlk, hmf, h.symm⟩
      | null => simp [scale_frames_doc, hlk] at h
      | bool b => simp [scale_frames_doc, hlk] at h
      | num q => simp [scale_frames_doc, hlk] at h
      | str s => simp [scale_frames_doc, hlk] at h
      | arr xs => simp [scale_frames_doc, hlk] at h
  | null => simp [scale_frames_doc] at h
  | bool b => simp [scale_frames_doc] at h
  | num q => simp [scale_frames_doc] at h
  | str s => simp [scale_frames_doc] at h
  | arr xs => simp [scale_frames_doc] at h

/-- C9: for every input document whose top-level mapping lacks the key
`frames`, the Frame Scaler transform is a no-op and the whole document is
written out unchanged. -/
theorem C9_missing_frames_noop (kvs : List (String × JVal))
    (hlk : lookupKey kvs "frames" = none) :
    scale_frames_doc (JVal.obj kvs) = some (JVal.obj kvs) := by
  simp [scale_frames_doc, hlk]

theorem C9_missing_frames_noop_witness :
    scale_frames_doc (JVal.obj [("size", JVal.num 3), ("meta", JVal.str "m")]) =
      some (JVal.obj [("size", JVal.num 3), ("meta", JVal.str "m")]) :=
  C9_missing_frames_noop [("size", JVal.num 3), ("meta", JVal.str "m")] (by rfl)

/-- C8: a top-level `size` entry present in the input document is carried to
the output byte-identically; the Frame Scaler never rescales or otherwise
touches it. -/
theorem C8_size_untouched (doc out v : JVal)
    (h : scale_frames_doc doc = some out)
    (hget : getPath doc [Step.field "size"] = some v) :
    getPath out [Step.field "size"] = some v := by
  rcases scale_frames_doc_cases doc out h with
    ⟨kvs, rfl, hlk, rfl⟩ | ⟨kvs, fs, fs2, rfl, hlk, hmf, rfl⟩
  · exact hget
  · simp only [getPath] at hget ⊢
    rw [lookupKey_setKey_ne kvs "frames" "size" _ (by decide)]
    exact hget

theorem C8_size_untouched_witness :
    getPath
        (JVal.obj [("frames", JVal.obj []),
          ("size", JVal.obj [("w", JVal.num 64), ("h", JVal.num 32)])])
        [Step.field "size"] =
      some (JVal.obj [("w", JVal.num 64), ("h", JVal.num 32)]) :=
  C8_size_untouched
    (JVal.obj [("frames", JVal.obj []),
      ("size", JVal.obj [("w", JVal.num 64), ("h", JVal.num 32)])])
    (JVal.obj [("frames", JVal.obj []),
      ("size", JVal.obj [("w", JVal.num 64), ("h", JVal.num 32)])])
    (JVal.obj [("w", JVal.num 64), ("h", JVal.num 32)])
    (by rfl) (by rfl)

/-- Does the path end in a dictionary key matching the Generic Scaler's
target rule with this (numeric) value — i.e. is this a leaf the Generic
Scaler rescales? -/
def targetLeafHit : List Step → JVal → Bool
  | [Step.field k], v => targetKey k && isNumeric v
  | _ :: s :: rest, v => targetLeafHit (s :: rest) v
  | _, _ => false

theorem targetLeafHit_cons (s s' : Step) (rest : List Step) (v : JVal) :
    targetLeafHit (s :: s' :: rest) v = targetLeafHit (s' :: rest) v := by
  cases s <;> cases s' <;> rfl

theorem pathResult_leaf_id (f : ℚ) :
    ∀ (p : List Step) (v : JVal), isLeaf v = true → targetLeafHit p v = false →
      pathResult f p v = v
  | [], v, hleaf, _ => scale_destinations_leaf f v hleaf
  | [Step.field k], v, hleaf, hmiss => by
    have hc : (isNumeric v && targetKey k) = false := by
      rw [targetLeafHit, Bool.and_comm] at hmiss
      exact hmiss
    simp [pathResult, hc, scale_destinations_leaf f v hleaf]
  | [Step.index i], v, hleaf, _ => by
    simp [pathResult, scale_destinations_leaf f v hleaf]
  | s :: s' :: rest, v, hleaf, hmiss => by
    rw [pathResult_cons]
    rw [targetLeafHit_cons] at hmiss
    exact pathResult_leaf_id f (s' :: rest) v hleaf hmiss

/-- C5: both scripts preserve the structural shape of the document (same
keys in the same order in every object, same list lengths, same nesting),
and only leaf values at targeted positions differ from the input: for the
Generic Scaler every leaf not sitting under a matching numeric key is
unchanged, and for the Frame Scaler every leaf not at a
`frames.*.{frame,spriteSourceSize,sourceSize}.{x,y,w,h}` path is
unchanged. -/
theorem C5_shape_preserved :
    (∀ (f : ℚ) (doc : JVal), shape (scale_destinations f doc) = shape doc) ∧
    (∀ (f : ℚ) (doc : JVal) (p : List Step) (v : JVal),
      getPath doc p = some v → isLeaf v = true → targetLeafHit p v = false →
      getPath (scale_destinations f doc) p = some v) ∧
    (∀ doc out : JVal, scale_frames_doc doc = some out → shape out = shape doc) ∧
    (∀ (doc out : JVal) (p : List Step) (v : JVal),
      scale_frames_doc doc = some out → getPath doc p = some v →
      isLeaf v = true → framesTarget p = false → getPath out p = some v) := by
  refine ⟨fun f doc => scale_shape f doc, ?_, ?_, ?_⟩
  · intro f doc p v hget hleaf hmiss
    have h := scale_getPath f p doc v hget
    rw [pathResult_leaf_id f p v hleaf hmiss] at h
    exact h
  · intro doc out h
    rcases scale_frames_doc_cases doc out h with
      ⟨kvs, rfl, hlk, rfl⟩ | ⟨kvs, fs, fs2, rfl, hlk, hmf, rfl⟩
    · rfl
    · simp only [shape]
      rw [setKey_shapeEntries kvs "frames" _ (JVal.obj fs) hlk
        (by simp only [shape]; rw [mapFrames_shapeEntries (1 / 2) fs fs2 hmf])]
  · intro doc out p v h hget hleaf hft
    rcases scale_frames_doc_cases doc out h with
      ⟨kvs, rfl, hlk, rfl⟩ | ⟨kvs, fs, fs2, rfl, hlk, hmf, rfl⟩
    · exact hget
    · cases p with
      | nil =>
        have hv : JVal.obj kvs = v := Option.some.inj hget
        rw [← hv] at hleaf
        simp [isLeaf] at hleaf
      | cons s rest =>
        cases s with
        | index i => exact absurd hget (by simp [getPath])
        | field k' =>
          simp only [getPath] at hget ⊢
          by_cases hk : k' = "frames"
          · subst hk
            rw [hlk] at hget
            rw [lookupKey_setKey_self kvs "frames" _ _ hlk]
            have hget' : getPath (JVal.obj fs) rest = some v := hget
            cases rest with
            | nil =>
              have hv : JVal.obj fs = v := Option.some.inj hget'
              rw [← hv] at hleaf
              simp [isLeaf] at hleaf
            | cons s2 rest2 =>
              cases s2 with
              | index i => exact absurd hget' (by simp [getPath])
              | field fname =>
                simp only [getPath] at hget' ⊢
                cases hlk2 : lookupKey fs fname with
                | none =>
                  rw [hlk2] at hget'
                  exact absurd hget' (by simp)
                | some fr =>
                  rw [hlk2] at hget'
                  have hget'' : getPath fr rest2 = some v := hget'
                  obtain ⟨fr2, hsf, hlk2'⟩ :=
                    mapFrames_lookup (1 / 2) fs fs2 hmf fname fr hlk2
                  rw [hlk2']
                  have hfp : frameTargetPath rest2 = false := by
                    simpa [framesTarget] using hft
                  exact scaleFrame_leafPath (1 / 2) fr fr2 hsf rest2 v hfp hget'' hleaf
          · rw [lookupKey_setKey_ne kvs "frames" k' _ hk]
            exact hget

theorem C5_shape_preserved_witness :
    (shape
        (scale_destinations (1 / 2)
          (JVal.obj [("dest_x", JVal.num 4), ("other", JVal.arr [JVal.num 7])])) =
      shape (JVal.obj [("dest_x", JVal.num 4), ("other", JVal.arr [JVal.num 7])])) ∧
    (getPath
        (scale_destinations (1 / 2)
          (JVal.obj [("dest_x", JVal.num 4), ("other", JVal.arr [JVal.num 7])]))
        [Step.field "other", Step.index 0] = some (JVal.num 7)) ∧
    (shape
        (JVal.obj [("frames", JVal.obj [("f1", JVal.obj [("pos", JVal.str "p")])]),
          ("note", JVal.str "n")]) =
      shape (JVal.obj [("frames", JVal.obj [("f1", JVal.obj [("pos", JVal.str "p")])]),
          ("note", JVal.str "n")])) ∧
    (getPath
        (JVal.obj [("frames", JVal.obj [("f1", JVal.obj [("pos", JVal.str "p")])]),
          ("note", JVal.str "n")])
        [Step.field "note"] = some (JVal.str "n")) :=
  ⟨C5_shape_preserved.1 (1 / 2)
      (JVal.obj [("dest_x", JVal.num 4), ("other", JVal.arr [JVal.num 7])]),
   C5_shape_preserved.2.1 (1 / 2)
      (JVal.obj [("dest_x", JVal.num 4), ("other", JVal.arr [JVal.num 7])])
      [Step.field "other", Step.index 0] (JVal.num 7) (by rfl) (by rfl) (by decide),
   C5_shape_preserved.2.2.1
      (JVal.obj [("frames", JVal.obj [("f1", JVal.obj [("pos", JVal.str "p")])]),
        ("note", JVal.str "n")])
      (JVal.obj [("frames", JVal.obj [("f1", JVal.obj [("pos", JVal.str "p")])]),
        ("note", JVal.str "n")])
      (by rfl),
   C5_shape_preserved.2.2.2
      (JVal.obj [("frames", JVal.obj [("f1", JVal.obj [("pos", JVal.str "p")])]),
        ("note", JVal.str "n")])
      (JVal.obj [("frames", JVal.obj [("f1", JVal.obj [("pos", JVal.str "p")])]),
        ("note", JVal.str "n")])
      [Step.field "note"] (JVal.str "n") (by rfl) (by rfl) (by rfl) (by decide)⟩

theorem shape_obj_inv (v : JVal) (l : List (String × JVal))
    (h : shape v = JVal.obj l) :
    ∃ kvs, v = JVal.obj kvs ∧ shapeEntries kvs = l := by
  cases v with
  | obj kvs => exact ⟨kvs, rfl, JVal.obj.inj h⟩
  | arr xs => simp [shape] at h
  | null => simp [shape] at h
  | bool b => simp [shape] at h
  | num q => simp [shape] at h
  | str s => simp [shape] at h

theorem lookupKey_none_iff (kvs : List (String × JVal)) (k : String) :
    lookupKey kvs k = none ↔ ¬ k ∈ kvs.map Prod.fst := by
  induction kvs with
  | nil => simp [lookupKey]
  | cons kv rest ih =>
    by_cases hk : kv.1 = k
    · simp [lookupKey, hk]
    · simp [lookupKey, hk, ih, Ne.symm hk]

/-- C6: within each frame's `frame`, `spriteSourceSize` and `sourceSize`
sub-objects, only the present keys among `x`, `y`, `w`, `h` are scaled:
`scale_dict` preserves the key list exactly (missing keys are never added)
and leaves every entry with a key outside `x`,`y`,`w`,`h` untouched, and a
frame lacking `spriteSourceSize` still lacks it after scaling. -/
theorem C6_present_keys_only (f : ℚ) :
    (∀ (kvs : List (String × JVal)) (v2 : JVal),
      scale_dict f (JVal.obj kvs) = some v2 →
      ∃ kvs2, v2 = JVal.obj kvs2 ∧
        kvs2.map Prod.fst = kvs.map Prod.fst ∧
        ∀ (i : ℕ) (e : String × JVal), kvs[i]? = some e → isXYWH e.1 = false →
          kvs2[i]? = some e) ∧
    (∀ (kvs : List (String × JVal)) (fr2 : JVal),
      scaleFrame f (JVal.obj kvs) = some fr2 →
      lookupKey kvs "spriteSourceSize" = none →
      ∃ kvs2, fr2 = JVal.obj kvs2 ∧ lookupKey kvs2 "spriteSourceSize" = none) := by
  constructor
  · intro kvs v2 h
    obtain ⟨kvs2, rfl, hent⟩ := scale_dict_entries f kvs v2 h
    have hsh := scale_dict_shape f (JVal.obj kvs) (JVal.obj kvs2) h
    simp only [shape, JVal.obj.injEq] at hsh
    refine ⟨kvs2, rfl, ?_, hent⟩
    rw [← shapeEntries_fst kvs2, ← shapeEntries_fst kvs, hsh]
  · intro kvs fr2 h hmiss
    have hsh := scaleFrame_shape f (JVal.obj kvs) fr2 h
    obtain ⟨kvs2, rfl, hent⟩ := shape_obj_inv fr2 (shapeEntries kvs) (by rw [hsh]; rfl)
    refine ⟨kvs2, rfl, ?_⟩
    rw [lookupKey_none_iff] at hmiss ⊢
    rw [← shapeEntries_fst kvs2, hent, shapeEntries_fst kvs]
    exact hmiss

theorem C6_present_keys_only_witness :
    (∃ kvs2, JVal.obj [("x", JVal.num 5), ("nm", JVal.str "a")] = JVal.obj kvs2 ∧
      kvs2.map Prod.fst =
        ([("x", JVal.num 10), ("nm", JVal.str "a")].map Prod.fst :
          List String) ∧
      ∀ (i : ℕ) (e : String × JVal),
        [("x", JVal.num 10), ("nm", JVal.str "a")][i]? = some e →
        isXYWH e.1 = false →
        kvs2[i]? = some e) ∧
    (∃ kvs2, JVal.obj [("pos", JVal.str "p")] = JVal.obj kvs2 ∧
      lookupKey kvs2 "spriteSourceSize" = none) :=
  ⟨(C6_present_keys_only (1 / 2)).1 [("x", JVal.num 10), ("nm", JVal.str "a")]
      (JVal.obj [("x", JVal.num 5), ("nm", JVal.str "a")])
      (by
        simp [scale_dict, stepKey, pyContains, lookupKey, setKey, scale_value,
          isNumeric, numVal]
        norm_num [roundHalfEven]),
   (C6_present_keys_only (1 / 2)).2 [("pos", JVal.str "p")]
      (JVal.obj [("pos", JVal.str "p")]) (by rfl) (by rfl)⟩

theorem any_of_lookupKey (kvs : List (String × JVal)) (k : String) (w : JVal)
    (h : lookupKey kvs k = some w) : kvs.any (fun kv => kv.1 = k) = true := by
  induction kvs with
  | nil => simp [lookupKey] at h
  | cons kv rest ih =>
    by_cases hk : kv.1 = k
    · simp [hk]
    · simp only [lookupKey] at h
      rw [if_neg hk] at h
      simp [hk, ih h]

/-- When the key is present with a numeric value, `stepKey` rewrites exactly
that entry to the rounded scaled value. -/
theorem stepKey_hit (f : ℚ) (k : String) (kvs : List (String × JVal)) (q : ℚ)
    (v2 : JVal) (hlk : lookupKey kvs k = some (JVal.num q))
    (h : stepKey f k (JVal.obj kvs) = some v2) :
    v2 = JVal.obj (setKey kvs k (JVal.num ((roundHalfEven (q * f) : ℤ) : ℚ))) := by
  have hpc : pyContains (JVal.obj kvs) k = some true := by
    simp only [pyContains, Option.some.injEq]
    exact any_of_lookupKey kvs k _ hlk
  have hsv : scale_value (JVal.num q) f = some (roundHalfEven (q * f)) := by
    simp [scale_value, isNumeric, numVal]
  simp only [stepKey, hpc, hlk, hsv, Option.some.injEq] at h
  exact h.symm

theorem stepKey_lookup_ne (f : ℚ) (k' d : String) (kvs : List (String × JVal))
    (v2 : JVal) (h : stepKey f k' (JVal.obj kvs) = some v2) (hne : d ≠ k') :
    ∃ kvs2, v2 = JVal.obj kvs2 ∧ lookupKey kvs2 d = lookupKey kvs d := by
  rcases stepKey_cases f k' (JVal.obj kvs) v2 h with rfl | ⟨kvs0, w, n, hv, hlk, hsv, rfl⟩
  · exact ⟨kvs, rfl, rfl⟩
  · have e : kvs = kvs0 := JVal.obj.inj hv
    subst e
    exact ⟨_, rfl, lookupKey_setKey_ne kvs k' d _ hne⟩

theorem isXYWH_cases (d : String) (hd : isXYWH d = true) :
    d = "x" ∨ d = "y" ∨ d = "w" ∨ d = "h" := by
  rw [isXYWH] at hd
  simpa [Bool.or_eq_true, decide_eq_true_eq, or_assoc] using hd

/-- When the key `d` (one of `x`,`y`,`w`,`h`) is present with a numeric
value, `scale_dict` rewrites it to the rounded scaled value. -/
theorem scale_dict_hit (f : ℚ) (d : String) (hd : isXYWH d = true)
    (kvs : List (String × JVal)) (q : ℚ) (v2 : JVal)
    (hlk : lookupKey kvs d = some (JVal.num q))
    (h : scale_dict f (JVal.obj kvs) = some v2) :
    ∃ kvs2, v2 = JVal.obj kvs2 ∧
      lookupKey kvs2 d = some (JVal.num ((roundHalfEven (q * f) : ℤ) : ℚ)) := by
  obtain ⟨va, vb, vc, h1, h2, h3, h4⟩ := scale_dict_parts f (JVal.obj kvs) v2 h
  rcases isXYWH_cases d hd with rfl | rfl | rfl | rfl
  · have hva := stepKey_hit f "x" kvs q va hlk h1
    subst hva
    have l1 := lookupKey_setKey_self kvs "x" (JVal.num ((roundHalfEven (q * f) : ℤ) : ℚ)) _ hlk
    obtain ⟨kb, rfl, lb⟩ := stepKey_lookup_ne f "y" "x" _ vb h2 (by decide)
    obtain ⟨kc, rfl, lc⟩ := stepKey_lookup_ne f "w" "x" kb vc h3 (by decide)
    obtain ⟨kd, rfl, ld⟩ := stepKey_lookup_ne f "h" "x" kc v2 h4 (by decide)
    exact ⟨kd, rfl, by rw [ld, lc, lb, l1]⟩
  · obtain ⟨ka, rfl, la⟩ := stepKey_lookup_ne f "x" "y" kvs va h1 (by decide)
    have hlka : lookupKey ka "y" = some (JVal.num q) := by rw [la]; exact hlk
    have hvb := stepKey_hit f "y" ka q vb hlka h2
    subst hvb
    have l2 := lookupKey_setKey_self ka "y" (JVal.num ((roundHalfEven (q * f) : ℤ) : ℚ)) _ hlka
    obtain ⟨kc, rfl, lc⟩ := stepKey_lookup_ne f "w" "y" _ vc h3 (by decide)
    obtain ⟨kd, rfl, ld⟩ := stepKey_lookup_ne f "h" "y" kc v2 h4 (by decide)
    exact ⟨kd, rfl, by rw [ld, lc, l2]⟩
  · obtain ⟨ka, rfl, la⟩ := stepKey_lookup_ne f "x" "w" kvs va h1 (by decide)
    obtain ⟨kb, rfl, lb⟩ := stepKey_lookup_ne f "y" "w" ka vb h2 (by decide)
    have hlkb : lookupKey kb "w" = some (JVal.num q) := by rw [lb, la]; exact hlk
    have hvc := stepKey_hit f "w" kb q vc hlkb h3
    subst hvc
    have l3 := lookupKey_setKey_self kb "w" (JVal.num ((roundHalfEven (q * f) : ℤ) : ℚ)) _ hlkb
    obtain ⟨kd, rfl, ld⟩ := stepKey_lookup_ne f "h" "w" _ v2 h4 (by decide)
    exact ⟨kd, rfl, by rw [ld, l3]⟩
  · obtain ⟨ka, rfl, la⟩ := stepKey_lookup_ne f "x" "h" kvs va h1 (by decide)
    obtain ⟨kb, rfl, lb⟩ := stepKey_lookup_ne f "y" "h" ka vb h2 (by decide)
    obtain ⟨kc, rfl, lc⟩ := stepKey_lookup_ne f "w" "h" kb vc h3 (by decide)
    have hlkc : lookupKey kc "h" = some (JVal.num q) := by rw [lc, lb, la]; exact hlk
    have hvd := stepKey_hit f "h" kc q v2 hlkc h4
    subst hvd
    exact ⟨_, rfl,
      lookupKey_setKey_self kc "h" (JVal.num ((roundHalfEven (q * f) : ℤ) : ℚ)) _ hlkc⟩

/-- When the sub-object name is present, `updateSub` rewrites exactly that
entry to its `scale_dict` image. -/
theorem updateSub_hit (f : ℚ) (name : String) (kvs : List (String × JVal))
    (w : JVal) (fr2 : JVal) (hlk : lookupKey kvs name = some w)
    (h : updateSub f name (JVal.obj kvs) = some fr2) :
    ∃ w2, scale_dict f w = some w2 ∧ fr2 = JVal.obj (setKey kvs name w2) := by
  have hpc : pyContains (JVal.obj kvs) name = some true := by
    simp only [pyContains, Option.some.injEq]
    exact any_of_lookupKey kvs name w hlk
  cases hsd : scale_dict f w with
  | none =>
    simp only [updateSub, hpc, hlk, hsd] at h
    exact absurd h (by simp)
  | some w2 =>
    simp only [updateSub, hpc, hlk, hsd, Option.some.injEq] at h
    exact ⟨w2, rfl, h.symm⟩

theorem updateSub_lookup_ne (f : ℚ) (name d : String) (kvs : List (String × JVal))
    (fr2 : JVal) (h : updateSub f name (JVal.obj kvs) = some fr2) (hne : d ≠ name) :
    ∃ kvs2, fr2 = JVal.obj kvs2 ∧ lookupKey kvs2 d = lookupKey kvs d := by
  rcases updateSub_cases f name (JVal.obj kvs) fr2 h with rfl | ⟨kvs0, w, w2, hv, hlk, hsd, rfl⟩
  · exact ⟨kvs, rfl, rfl⟩
  · have e : kvs = kvs0 := JVal.obj.inj hv
    subst e
    exact ⟨_, rfl, lookupKey_setKey_ne kvs name d w2 hne⟩

/-- When a frame object has a `frame` entry, the frames loop body rewrites
exactly that entry to its `scale_dict` image. -/
theorem scaleFrame_hit (f : ℚ) (kvsf : List (String × JVal)) (w : JVal)
    (fr2 : JVal) (hlk : lookupKey kvsf "frame" = some w)
    (h : scaleFrame f (JVal.obj kvsf) = some fr2) :
    ∃ w2, scale_dict f w = some w2 ∧
      ∃ kvs2, fr2 = JVal.obj kvs2 ∧ lookupKey kvs2 "frame" = some w2 := by
  obtain ⟨fa, fb, h1, h2, h3⟩ := scaleFrame_parts f (JVal.obj kvsf) fr2 h
  obtain ⟨w2, hsd, hfa⟩ := updateSub_hit f "frame" kvsf w fa hlk h1
  subst hfa
  have l1 := lookupKey_setKey_self kvsf "frame" w2 w hlk
  obtain ⟨kb, rfl, lb⟩ := updateSub_lookup_ne f "spriteSourceSize" "frame" _ fb h2 (by decide)
  obtain ⟨kc, rfl, lc⟩ := updateSub_lookup_ne f "sourceSize" "frame" kb fr2 h3 (by decide)
  exact ⟨w2, hsd, kc, rfl, by rw [lc, lb, l1]⟩

/-- The Frame Scaler's effect on every targeted path: in any document, for
any frame name, if the frame's `frame` sub-object has a numeric value `q` at
one of the keys `x`,`y`,`w`,`h`, the output has
`round-half-even (q * 0.5)` there. -/
theorem frames_doc_target (doc out : JVal) (fname d : String) (q : ℚ)
    (hd : isXYWH d = true) (h : scale_frames_doc doc = some out)
    (hget : getPath doc [Step.field "frames", Step.field fname,
      Step.field "frame", Step.field d] = some (JVal.num q)) :
    getPath out [Step.field "frames", Step.field fname,
      Step.field "frame", Step.field d] =
      some (JVal.num ((roundHalfEven (q * (1 / 2)) : ℤ) : ℚ)) := by
  rcases scale_frames_doc_cases doc out h with
    ⟨kvs, rfl, hlk, rfl⟩ | ⟨kvs, fs, fs2, rfl, hlk, hmf, rfl⟩
  · simp only [getPath] at hget
    rw [hlk] at hget
    exact absurd hget (by simp)
  · simp only [getPath] at hget ⊢
    rw [hlk] at hget
    rw [lookupKey_setKey_self kvs "frames" _ _ hlk]
    have hget1 : getPath (JVal.obj fs)
        [Step.field fname, Step.field "frame", Step.field d] =
        some (JVal.num q) := hget
    simp only [getPath] at hget1 ⊢
    cases hlf : lookupKey fs fname with
    | none =>
      rw [hlf] at hget1
      exact absurd hget1 (by simp)
    | some fr =>
      rw [hlf] at hget1
      have hget2 : getPath fr [Step.field "frame", Step.field d] =
          some (JVal.num q) := hget1
      obtain ⟨fr2, hsf, hlf2⟩ := mapFrames_lookup (1 / 2) fs fs2 hmf fname fr hlf
      rw [hlf2]
      cases fr with
      | obj kvsf =>
        simp only [getPath] at hget2
        cases hlfr : lookupKey kvsf "frame" with
        | none =>
          rw [hlfr] at hget2
          exact absurd hget2 (by simp)
        | some w =>
          rw [hlfr] at hget2
          have hget3 : getPath w [Step.field d] = some (JVal.num q) := hget2
          obtain ⟨w2, hsd, kvs2, rfl, hl2⟩ := scaleFrame_hit (1 / 2) kvsf w fr2 hlfr hsf
          simp only [getPath]
          rw [hl2]
          cases w with
          | obj kvsw =>
            simp only [getPath] at hget3
            cases hlw : lookupKey kvsw d with
            | none =>
              rw [hlw] at hget3
              exact absurd hget3 (by simp)
            | some wv =>
              rw [hlw] at hget3
              have hwv : wv = JVal.num q := Option.some.inj hget3
              subst hwv
              obtain ⟨kw2, rfl, hlast⟩ := scale_dict_hit (1 / 2) d hd kvsw q w2 hlw hsd
              simp only [getPath]
              rw [hlast]
          | null => exact absurd hget3 (by simp [getPath])
          | bool b => exact absurd hget3 (by simp [getPath])
          | num q0 => exact absurd hget3 (by simp [getPath])
          | str s => exact absurd hget3 (by simp [getPath])
          | arr xs => exact absurd hget3 (by simp [getPath])
      | null => exact absurd hget2 (by simp [getPath])
      | bool b => exact absurd hget2 (by simp [getPath])
      | num q0 => exact absurd hget2 (by simp [getPath])
      | str s => exact absurd hget2 (by simp [getPath])
      | arr xs => exact absurd hget2 (by simp [getPath])

/-- C2 counterexample: the claim asserts that input `x = 11` yields 5, but
`round(11 * 0.5) = round(5.5)` rounds half to even, giving 6: the code
produces `x = 6`. -/
theorem C2_round_counterexample :
    ¬ (scale_dict (1 / 2) (JVal.obj [("x", JVal.num 11)]) =
        some (JVal.obj [("x", JVal.num 5)])) := by
  have he : scale_dict (1 / 2) (JVal.obj [("x", JVal.num 11)]) =
      some (JVal.obj [("x", JVal.num 6)]) := by
    simp [scale_dict, stepKey, pyContains, lookupKey, setKey, scale_value,
      isNumeric, numVal]
    norm_num [roundHalfEven]
  rw [he]
  intro hc
  simp at hc

/-- C2 (amended): in every document, every frame entry whose `frame`
sub-object has the integer fields `x=10, y=20, w=30, h=40` is scaled by
factor 0.5 to `x=5, y=10, w=15, h=20`; each scaled value is rounded to the
nearest integer with ties going to the even integer, so a frame whose
`frame` sub-object has `x=11` (5.5 after scaling) yields 6. -/
theorem C2_frame_scaling_amended :
    (∀ (doc out : JVal) (fname : String),
      scale_frames_doc doc = some out →
      getPath doc [Step.field "frames", Step.field fname, Step.field "frame",
        Step.field "x"] = some (JVal.num 10) →
      getPath doc [Step.field "frames", Step.field fname, Step.field "frame",
        Step.field "y"] = some (JVal.num 20) →
      getPath doc [Step.field "frames", Step.field fname, Step.field "frame",
        Step.field "w"] = some (JVal.num 30) →
      getPath doc [Step.field "frames", Step.field fname, Step.field "frame",
        Step.field "h"] = some (JVal.num 40) →
      getPath out [Step.field "frames", Step.field fname, Step.field "frame",
        Step.field "x"] = some (JVal.num 5) ∧
      getPath out [Step.field "frames", Step.field fname, Step.field "frame",
        Step.field "y"] = some (JVal.num 10) ∧
      getPath out [Step.field "frames", Step.field fname, Step.field "frame",
        Step.field "w"] = some (JVal.num 15) ∧
      getPath out [Step.field "frames", Step.field fname, Step.field "frame",
        Step.field "h"] = some (JVal.num 20)) ∧
    (∀ (doc out : JVal) (fname : String),
      scale_frames_doc doc = some out →
      getPath doc [Step.field "frames", Step.field fname, Step.field "frame",
        Step.field "x"] = some (JVal.num 11) →
      getPath out [Step.field "frames", Step.field fname, Step.field "frame",
        Step.field "x"] = some (JVal.num 6)) := by
  constructor
  · intro doc out fname h hx hy hw hh
    have ex : ((roundHalfEven ((10 : ℚ) * (1 / 2)) : ℤ) : ℚ) = 5 := by
      norm_num [roundHalfEven]
    have ey : ((roundHalfEven ((20 : ℚ) * (1 / 2)) : ℤ) : ℚ) = 10 := by
      norm_num [roundHalfEven]
    have ew : ((roundHalfEven ((30 : ℚ) * (1 / 2)) : ℤ) : ℚ) = 15 := by
      norm_num [roundHalfEven]
    have eh : ((roundHalfEven ((40 : ℚ) * (1 / 2)) : ℤ) : ℚ) = 20 := by
      norm_num [roundHalfEven]
    refine ⟨?_, ?_, ?_, ?_⟩
    · have t := frames_doc_target doc out fname "x" 10 (by decide) h hx
      rw [ex] at t
      exact t
    · have t := frames_doc_target doc out fname "y" 20 (by decide) h hy
      rw [ey] at t
      exact t
    · have t := frames_doc_target doc out fname "w" 30 (by decide) h hw
      rw [ew] at t
      exact t
    · have t := frames_doc_target doc out fname "h" 40 (by decide) h hh
      rw [eh] at t
      exact t
  · intro doc out fname h hx
    have e11 : ((roundHalfEven ((11 : ℚ) * (1 / 2)) : ℤ) : ℚ) = 6 := by
      norm_num [roundHalfEven]
    have t := frames_doc_target doc out fname "x" 11 (by decide) h hx
    rw [e11] at t
    exact t

theorem C2_frame_scaling_amended_witness :
    (getPath
        (JVal.obj [("frames", JVal.obj [("f1", JVal.obj [("frame",
          JVal.obj [("x", JVal.num 5), ("y", JVal.num 10), ("w", JVal.num 15),
            ("h", JVal.num 20)])])])])
        [Step.field "frames", Step.field "f1", Step.field "frame",
          Step.field "x"] = some (JVal.num 5)) ∧
    (getPath
        (JVal.obj [("frames", JVal.obj [("g", JVal.obj [("frame",
          JVal.obj [("x", JVal.num 6)])])])])
        [Step.field "frames", Step.field "g", Step.field "frame",
          Step.field "x"] = some (JVal.num 6)) := by
  have hdoc : scale_frames_doc
      (JVal.obj [("frames", JVal.obj [("f1", JVal.obj [("frame",
        JVal.obj [("x", JVal.num 10), ("y", JVal.num 20), ("w", JVal.num 30),
          ("h", JVal.num 40)])])])]) =
      some (JVal.obj [("frames", JVal.obj [("f1", JVal.obj [("frame",
        JVal.obj [("x", JVal.num 5), ("y", JVal.num 10), ("w", JVal.num 15),
          ("h", JVal.num 20)])])])]) := by
    simp [scale_frames_doc, mapFrames, scaleFrame, updateSub, scale_dict,
      stepKey, pyContains, lookupKey, setKey, scale_value, isNumeric, numVal]
    norm_num [roundHalfEven]
  have hdoc2 : scale_frames_doc
      (JVal.obj [("frames", JVal.obj [("g", JVal.obj [("frame",
        JVal.obj [("x", JVal.num 11)])])])]) =
      some (JVal.obj [("frames", JVal.obj [("g", JVal.obj [("frame",
        JVal.obj [("x", JVal.num 6)])])])]) := by
    simp [scale_frames_doc, mapFrames, scaleFrame, updateSub, scale_dict,
      stepKey, pyContains, lookupKey, setKey, scale_value, isNumeric, numVal]
    norm_num [roundHalfEven]
  refine ⟨(C2_frame_scaling_amended.1 _ _ "f1" hdoc (by rfl) (by rfl) (by rfl)
    (by rfl)).1, C2_frame_scaling_amended.2 _ _ "g" hdoc2 (by rfl)⟩

/-- C10: invoked with an argument count other than exactly two positional
arguments (`sys.argv` of length other than 3), each script prints its usage
message to standard output and exits with status 1 before touching any
file. -/
theorem C10_usage_error (argv : List String) (h : argv.length ≠ 3) :
    scale_config_cli argv = CliAct.usage 1 ∧
    scale_frames_cli argv = CliAct.usage 1 := by
  cases argv with
  | nil => exact ⟨rfl, rfl⟩
  | cons a t1 =>
    cases t1 with
    | nil => exact ⟨rfl, rfl⟩
    | cons b t2 =>
      cases t2 with
      | nil => exact ⟨rfl, rfl⟩
      | cons c t3 =>
        cases t3 with
        | nil => exact absurd rfl h
        | cons d t4 => exact ⟨rfl, rfl⟩

theorem C10_usage_error_witness :
    (scale_config_cli ["scale_config.py"] = CliAct.usage 1 ∧
      scale_frames_cli ["scale_config.py"] = CliAct.usage 1) ∧
    (scale_config_cli ["scale_frames.py", "a.json", "b.json", "c.json"] =
        CliAct.usage 1 ∧
      scale_frames_cli ["scale_frames.py", "a.json", "b.json", "c.json"] =
        CliAct.usage 1) :=
  ⟨C10_usage_error ["scale_config.py"] (by decide),
   C10_usage_error ["scale_frames.py", "a.json", "b.json", "c.json"] (by decide)⟩

end Mirage
